import Mathlib

/-!
# Shallow embedding of the jest-bundler core

This file embeds the bundling pipeline of `src/index.mjs` (the variant that
assigns integer module ids and emits a `define`-wrapped bundle) together with
the per-file transform wrapper of `src/worker.js`, and proves the stated
properties of the module-graph builder, the require-rewrite serializer and the
transform stage.

Modelling conventions:
* JavaScript strings are `List Char` (`Str`).
* The external collaborators (jest-haste-map, jest-resolve, `fs.readFileSync`)
  are gathered in a `FileIndex` record of pure functions; `hasteFS.exists p`
  is membership of `p` in `FileIndex.files`.
* The graph-building `while` loop is a fuel-indexed recursion `buildLoop`;
  running out of fuel yields `none`, so termination statements assert that a
  concrete fuel value returns `some`.
* The rewrite RegExp of src/index.mjs:259-265 is built from the specifier with
  `.` and `/` escaped, which are the only RegExp metacharacters occurring in
  the project-relative path specifiers the resolver accepts; it is therefore
  modelled as an exact-text matcher for the call form
  `require(<quote><specifier><quote>)` with matching quotes (the
  back-reference `\1`), replaced by `require(<id>)`, first occurrence only
  (the RegExp carries no global flag).
* `modules.get(path).id` on a missing path would be a TypeError in JS; the
  serializer is therefore `Option`-valued and yields `none` in that case.
-/

namespace JestBundler

abbrev Str := List Char

/-- Exact prefix test on character lists. -/
def prefixAt : Str → Str → Bool
  | [], _ => true
  | _ :: _, [] => false
  | a :: as, b :: bs => decide (a = b) && prefixAt as bs

/-- The literal text matched by the rewrite RegExp of src/index.mjs:260-263
for one quote character: `require(<q><specifier><q>)`.  The back-reference
`\1` forces the closing quote to equal the opening one. -/
def requireCall (q : Char) (spec : Str) : Str :=
  ("require(").data ++ q :: (spec ++ [q, ')'])

/-- The replacement text built at src/index.mjs:264. -/
def requireId (id : Nat) : Str :=
  ("require(").data ++ (Nat.repr id).data ++ [')']

/-- Embeds `code.replace(re, repl)` for the non-global RegExp of src/index.mjs:259-265:
scan left to right; at each position try the single-quoted call form first
(the alternation lists `'` before `"`), then the double-quoted one; replace
the first match only and keep the remainder verbatim. -/
def replaceRequire (spec repl : Str) : Str → Str
  | [] => []
  | c :: rest =>
    if prefixAt (requireCall '\'' spec) (c :: rest) then
      repl ++ List.drop (requireCall '\'' spec).length (c :: rest)
    else if prefixAt (requireCall '"' spec) (c :: rest) then
      repl ++ List.drop (requireCall '"' spec).length (c :: rest)
    else c :: replaceRequire spec repl rest

/-- Does `pat` occur as a contiguous substring of the second argument? -/
def containsPat (pat : Str) : Str → Bool
  | [] => prefixAt pat []
  | c :: rest => prefixAt pat (c :: rest) || containsPat pat rest

/-- Predicate `noEarlyMatch p1 p2 s u = true` states that no occurrence of `p1` or `p2`
starts at any position inside `s` when the text `u` follows it. -/
def noEarlyMatch (p1 p2 : Str) : Str → Str → Bool
  | [], _ => true
  | c :: rest, u =>
    !prefixAt p1 ((c :: rest) ++ u) &&
      (!prefixAt p2 ((c :: rest) ++ u) && noEarlyMatch p1 p2 rest u)

/-- Per-module record stored in the module table (src/index.mjs:220-226). -/
structure Metadata where
  id : Nat
  code : Str
  dependencyMap : List (Str × Str)
deriving DecidableEq

/-- One insertion step of `new Map(pairs)` (src/index.mjs:207-214): a pair
whose key is already present overwrites that key's value in place; a new key
is appended at the end.  JavaScript `Map` keeps first-insertion key order. -/
def insertDep (acc : List (Str × Str)) (kv : Str × Str) : List (Str × Str) :=
  if kv.1 ∈ acc.map (fun e => e.1) then
    acc.map (fun e => if e.1 = kv.1 then (e.1, kv.2) else e)
  else acc ++ [kv]

/-- Builds `new Map(pairs)` over a pair list. -/
def mkDependencyMap (l : List (Str × Str)) : List (Str × Str) :=
  l.foldl insertDep []

/-- The external collaborators consumed by src/index.mjs: the haste-map file
set (`hasteFS.exists` is membership in `files`), the dependency scanner
`hasteFS.getDependencies`, `fs.readFileSync`, and `resolver.resolveModule`. -/
structure FileIndex where
  files : List Str
  getDependencies : Str → List Str
  readFile : Str → Str
  resolveModule : Str → Str → Str

/-- The mutable state of the graph-building loop (src/index.mjs:191-194):
the visited set `seen`, the module table `modules` in insertion order, the
FIFO work queue, and the id counter. -/
structure BuildState where
  seen : List Str
  modules : List (Str × Metadata)
  queue : List Str
  nextId : Nat
deriving DecidableEq

/-- Loop state just before the `while` loop: empty visited set and table,
queue seeded with the entry path, id counter at 0 (src/index.mjs:191-194). -/
def initState (entry : Str) : BuildState :=
  { seen := [], modules := [], queue := [entry], nextId := 0 }

/-- The `(dependencyName, resolvedPath)` pairs fed to the `Map` constructor
(src/index.mjs:207-214). -/
def depPairs (fs : FileIndex) (m : Str) : List (Str × Str) :=
  (fs.getDependencies m).map (fun d => (d, fs.resolveModule m d))

/-- One processing step of the loop body for an unvisited module `m`
(src/index.mjs:204-228): mark seen, build the dependency map, read the file,
append the record with the next id, push the dependency-map values. -/
def visitState (fs : FileIndex) (st : BuildState) (m : Str) (rest : List Str) :
    BuildState :=
  let dm := mkDependencyMap (depPairs fs m)
  { seen := m :: st.seen
    modules := st.modules ++
      [(m, { id := st.nextId, code := fs.readFile m, dependencyMap := dm })]
    queue := rest ++ dm.map (fun e => e.2)
    nextId := st.nextId + 1 }

/-- The graph-building `while` loop (src/index.mjs:196-229), indexed by fuel;
`none` means the fuel ran out with a non-empty queue. -/
def buildLoop (fs : FileIndex) : Nat → BuildState → Option BuildState
  | 0, st =>
    match st.queue with
    | [] => some st
    | _ :: _ => none
  | fuel + 1, st =>
    match st.queue with
    | [] => some st
    | m :: rest =>
      if m ∈ st.seen then buildLoop fs fuel { st with queue := rest }
      else buildLoop fs fuel (visitState fs st m rest)

/-- An upper bound on the number of dependencies of any indexed file. -/
def depBound (fs : FileIndex) : Nat :=
  (fs.files.map (fun p => (fs.getDependencies p).length)).foldl Nat.max 0

/-- Termination measure of the loop: unvisited indexed files, weighted by the
maximal queue growth of one step, plus the queue length. -/
def buildMeasure (fs : FileIndex) (st : BuildState) : Nat :=
  (depBound fs + 1) * (fs.files.toFinset \ st.seen.toFinset).card + st.queue.length

/-- Reachability from the entry along scanner/resolver edges. -/
inductive Reachable (fs : FileIndex) (entry : Str) : Str → Prop where
  | base : Reachable fs entry entry
  | step : ∀ p d, Reachable fs entry p → d ∈ fs.getDependencies p →
      Reachable fs entry (fs.resolveModule p d)

/-- Invariant of the graph-building loop. -/
structure BuildInv (fs : FileIndex) (entry : Str) (st : BuildState) : Prop where
  queue_files : ∀ p ∈ st.queue, p ∈ fs.files
  seen_files : ∀ p ∈ st.seen, p ∈ fs.files
  queue_reach : ∀ p ∈ st.queue, Reachable fs entry p
  seen_reach : ∀ p ∈ st.seen, Reachable fs entry p
  entry_mem : entry ∈ st.seen ∨ entry ∈ st.queue
  closed : ∀ p ∈ st.seen, ∀ d ∈ fs.getDependencies p,
    fs.resolveModule p d ∈ st.seen ∨ fs.resolveModule p d ∈ st.queue
  keys_eq : st.modules.map (fun e => e.1) = st.seen.reverse
  seen_nodup : st.seen.Nodup
  ids_range : st.modules.map (fun e => e.2.id) = List.range st.nextId
  count_eq : st.nextId = st.modules.length
  entry_first : st.modules = [] ∨
    ∃ m0 rest, st.modules = (entry, m0) :: rest ∧ m0.id = 0
  start : st.modules = [] → st.seen = [] ∧ st.queue = [entry]

/-- Wraps a module body as `define(<id>, function(module, exports, require) \x7b<code>\x7d);`
(src/index.mjs:245-246). -/
def wrapModule (id : Nat) (code : Str) : Str :=
  ("define(").data ++ (Nat.repr id).data ++
    (", function(module, exports, require) \x7b\n").data ++ code ++
    ("\x7d);").data

/-- Looks up `modules.get(path)` on the module table. -/
def lookupModule (table : List (Str × Metadata)) (p : Str) : Option Metadata :=
  (table.find? (fun e => decide (e.1 = p))).map (fun e => e.2)

/-- The inner rewrite loop over one module's dependency map
(src/index.mjs:254-266): replace, one dependency after the other, the first
textual occurrence of its require call by `require(<resolved id>)`.  `none`
models the TypeError JS raises when a dependency path is not in the table. -/
def rewriteDeps (table : List (Str × Metadata)) (deps : List (Str × Str))
    (code : Str) : Option Str :=
  deps.foldl
    (fun acc nv =>
      acc.bind (fun c =>
        (lookupModule table nv.2).map (fun dep =>
          replaceRequire nv.1 (requireId dep.id) c)))
    (some code)

/-- The wrapped registration text produced for one module table entry. -/
def serializeChunk (table : List (Str × Metadata)) (e : Str × Metadata) :
    Option Str :=
  (rewriteDeps table e.2.dependencyMap e.2.code).map (fun c =>
    wrapModule e.2.id c)

/-- The serialization loop (src/index.mjs:249-269) with the module table
threaded through explicitly: `Array.from(modules).reverse()` is iterated, each
iteration reads the table and appends one wrapped chunk to `output`; the table
component of the returned pair is the table as the loop leaves it. -/
def serializeLoopS (table : List (Str × Metadata)) :
    List (Str × Metadata) × Option (List Str) :=
  table.reverse.foldl
    (fun st e =>
      (st.1, st.2.bind (fun out =>
        (serializeChunk st.1 e).map (fun c => out ++ [c]))))
    (table, some [])

/-- Final assembly (src/index.mjs:271-276): `output.unshift(runtime)`, then
`output.push(['requireModule(0);'])` (a one-element array, which
`Array.prototype.join` stringifies to the bare text), then `output.join('\n')`. -/
def serializeBundle (runtime : Str) (table : List (Str × Metadata)) :
    Option Str :=
  (serializeLoopS table).2.map (fun chunks =>
    List.intercalate ['\n'] (runtime :: (chunks ++ [("requireModule(0);").data])))

/-- Result object of `transformFile` (src/worker.js:8): a `code` field,
initially the empty string, and an `errorMessage` field present only on
failure. -/
structure TransformResult where
  code : Str
  errorMessage : Option Str
deriving DecidableEq

/-- Embeds `exports.transformFile` (src/worker.js:7-19).  The external Babel call is
a parameter `transform`; `.ok (some t)` is a resolved result with code `t`,
`.ok none` a resolved result with a null code (then `?? code` keeps the
input), and `.error msg` a rejection caught by the `catch` block. -/
def transformFile (transform : Str → Except Str (Option Str)) (code : Str) :
    TransformResult :=
  match transform code with
  | .ok transformedCode => { code := transformedCode.getD code, errorMessage := none }
  | .error msg => { code := [], errorMessage := some msg }

/-- A transform failure attributed to one module. -/
structure TransformError where
  modulePath : Str
  message : Str
deriving DecidableEq

/-- Modelled from the spec: src/ contains only the per-file worker
(`src/worker.js`); the build-level dispatcher that applies it to every module
of the table and fails the whole build on the first per-module error is
specified in §4.3 ("if the Transformer reports an error for a module, the
whole build fails with TransformError{modulePath, message} — no partial
bundles are emitted") but absent from src/.  Each module's `transformFile`
result replaces its `code`; a result carrying `errorMessage` aborts with a
`TransformError` naming that module. -/
def transformStage (transform : Str → Except Str (Option Str)) :
    List (Str × Metadata) → Except TransformError (List (Str × Metadata))
  | [] => .ok []
  | (p, m) :: rest =>
    let r := transformFile transform m.code
    match r.errorMessage with
    | some msg => .error { modulePath := p, message := msg }
    | none =>
      match transformStage transform rest with
      | .error e => .error e
      | .ok t => .ok ((p, { m with code := r.code }) :: t)

/-- The ways a build can fail. -/
inductive BuildError where
  | entryNotFound
  | transformError (modulePath message : Str)
  | serializationError
deriving DecidableEq

/-- The whole pipeline: the entry-existence check of src/index.mjs:167-171,
then the graph build, then the transform stage (spec §2: 1→2→3→4), then
serialization.  The outer `Option` is the fuel of the graph build; every
failure is a loud `BuildError`, never a bundle. -/
def bundle (fs : FileIndex) (transform : Str → Except Str (Option Str))
    (runtime : Str) (entry : Str) (fuel : Nat) :
    Option (Except BuildError Str) :=
  if entry ∈ fs.files then
    match buildLoop fs fuel (initState entry) with
    | none => none
    | some st =>
      match transformStage transform st.modules with
      | .error e => some (.error (.transformError e.modulePath e.message))
      | .ok table =>
        match serializeBundle runtime table with
        | none => some (.error .serializationError)
        | some b => some (.ok b)
  else some (.error .entryNotFound)

/-! ## Concrete two-module fixture

Entry `a.js` requires `./b`; `b.js` has no dependencies (spec §8, scenario
used by several witnesses). -/

def aPath : Str := ("/a.js").data

def bPath : Str := ("/b.js").data

def aCode : Str := ("console.log(require(\"./b\"));").data

def bCode : Str := ("module.exports = \"ok\";").data

def exFS : FileIndex :=
  { files := [aPath, bPath]
    getDependencies := fun p => if p = aPath then [("./b").data] else []
    readFile := fun p => if p = aPath then aCode else if p = bPath then bCode else []
    resolveModule := fun _ s => if s = ("./b").data then bPath else aPath }

def exRuntime : Str := ("RUNTIME").data

/-- Module record of `a.js` in the fixture build. -/
def aMeta : Metadata :=
  { id := 0, code := aCode, dependencyMap := [(("./b").data, bPath)] }

/-- Module record of `b.js` in the fixture build. -/
def bMeta : Metadata := { id := 1, code := bCode, dependencyMap := [] }

/-- The state the fixture build reaches: both modules recorded, queue empty. -/
def exSt : BuildState :=
  { seen := [bPath, aPath]
    modules := [(aPath, aMeta), (bPath, bMeta)]
    queue := []
    nextId := 2 }

/-- The two wrapped chunks the fixture serializes to, in emission order
(`b.js` first, entry last). -/
def exChunks : List Str :=
  [wrapModule 1 bCode, wrapModule 0 (("console.log(require(1));").data)]

/-- The fixture's full bundle text. -/
def exBundleText : Str :=
  List.intercalate ['\n'] (exRuntime :: (exChunks ++ [("requireModule(0);").data]))

/-- A cyclic two-module index: `a.js` requires `./b` and `b.js` requires
`./a` back. -/
def cycFS : FileIndex :=
  { files := [aPath, bPath]
    getDependencies := fun p =>
      if p = aPath then [("./b").data] else
      if p = bPath then [("./a").data] else []
    readFile := fun _ => []
    resolveModule := fun _ s => if s = ("./b").data then bPath else aPath }

/-- A transformer that rejects exactly the fixture entry's source. -/
def failT : Str → Except Str (Option Str) :=
  fun c => if c = aCode then .error (("boom").data) else .ok none

/-- A transformer that always resolves with a null code. -/
def okT : Str → Except Str (Option Str) := fun _ => .ok none

/-! ## Lemmas about the textual require rewrite -/

lemma prefixAt_self_append (l t : Str) : prefixAt l (l ++ t) = true := by
  induction l with
  | nil => rfl
  | cons a as ih => simp [prefixAt, ih]

lemma prefixAt_append_mismatch (pre : Str) (a b : Char) (h : a ≠ b)
    (x y t : Str) : prefixAt (pre ++ a :: x) ((pre ++ b :: y) ++ t) = false := by
  induction pre with
  | nil =>
    have hd : decide (a = b) = false := decide_eq_false h
    simp [prefixAt, hd]
  | cons c pre ih =>
    simp only [List.append_assoc, List.cons_append] at ih
    simp [prefixAt, ih]

/-- The single-quoted call form never matches where the double-quoted one
starts (the quotes differ at the position right after `require(`). -/
lemma prefixAt_single_double (spec t : Str) :
    prefixAt (requireCall '\'' spec) (requireCall '"' spec ++ t) = false := by
  simpa [requireCall] using
    prefixAt_append_mismatch (("require(").data) '\'' '"' (by decide)
      (spec ++ ['\'', ')']) (spec ++ ['"', ')']) t

lemma replaceRequire_head1 (spec repl s : Str)
    (h : prefixAt (requireCall '\'' spec) s = true) :
    replaceRequire spec repl s =
      repl ++ List.drop (requireCall '\'' spec).length s := by
  cases s with
  | nil => simp [requireCall, prefixAt] at h
  | cons c rest => simp [replaceRequire, h]

lemma replaceRequire_head2 (spec repl s : Str)
    (h1 : prefixAt (requireCall '\'' spec) s = false)
    (h2 : prefixAt (requireCall '"' spec) s = true) :
    replaceRequire spec repl s =
      repl ++ List.drop (requireCall '"' spec).length s := by
  cases s with
  | nil => simp [requireCall, prefixAt] at h2
  | cons c rest => simp [replaceRequire, h1, h2]

lemma replaceRequire_skip (spec repl : Str) (c : Char) (rest : Str)
    (h1 : prefixAt (requireCall '\'' spec) (c :: rest) = false)
    (h2 : prefixAt (requireCall '"' spec) (c :: rest) = false) :
    replaceRequire spec repl (c :: rest) = c :: replaceRequire spec repl rest := by
  simp [replaceRequire, h1, h2]

lemma replaceRequire_no_match (spec repl : Str) :
    ∀ code : Str, containsPat (requireCall '\'' spec) code = false →
      containsPat (requireCall '"' spec) code = false →
      replaceRequire spec repl code = code := by
  intro code
  induction code with
  | nil => intro _ _; rfl
  | cons c rest ih =>
    intro h1 h2
    simp only [containsPat, Bool.or_eq_false_iff] at h1 h2
    rw [replaceRequire_skip _ _ _ _ h1.1 h2.1, ih h1.2 h2.2]

lemma replaceRequire_first (spec repl : Str) (q : Char)
    (hq : q = '\'' ∨ q = '"') :
    ∀ s t : Str,
      noEarlyMatch (requireCall '\'' spec) (requireCall '"' spec) s
        (requireCall q spec ++ t) = true →
      replaceRequire spec repl (s ++ (requireCall q spec ++ t)) =
        s ++ (repl ++ t) := by
  intro s
  induction s with
  | nil =>
    intro t _
    simp only [List.nil_append]
    rcases hq with h | h
    · subst h
      rw [replaceRequire_head1 _ _ _ (prefixAt_self_append _ _), List.drop_left]
    · subst h
      rw [replaceRequire_head2 _ _ _ (prefixAt_single_double _ _)
            (prefixAt_self_append _ _), List.drop_left]
  | cons c s ih =>
    intro t hs
    simp only [noEarlyMatch, List.cons_append, Bool.and_eq_true,
      Bool.not_eq_true'] at hs
    obtain ⟨h1, h2, h3⟩ := hs
    rw [List.cons_append, replaceRequire_skip _ _ _ _ h1 h2, ih t h3,
      List.cons_append]

/-! ## Claim theorems: the require rewrite (C4, C9) -/

/-- C4: the serializer's rewrite is specifier-exact.  Any module source that
contains no occurrence of the exact call form `require('<specifier>')` or
`require("<specifier>")` with matching quotes — even if it contains the
specifier's characters elsewhere — is left byte-for-byte unchanged by the
rewrite of src/index.mjs:259-265. -/
theorem rewriteSpecifierExact (spec : Str) (id : Nat) (code : Str)
    (h1 : containsPat (requireCall '\'' spec) code = false)
    (h2 : containsPat (requireCall '"' spec) code = false) :
    replaceRequire spec (requireId id) code = code :=
  replaceRequire_no_match spec (requireId id) code h1 h2

/-- Witness for C4: a source containing the specifier text `./b` twice, once
in an unrelated string and once with mismatched quotes, is unchanged. -/
theorem rewriteSpecifierExact_witness :
    replaceRequire (("./b").data) (requireId 1)
        (("var s = \"./b\" + \"x ./b y\"; g(1);").data) =
      ("var s = \"./b\" + \"x ./b y\"; g(1);").data :=
  rewriteSpecifierExact (("./b").data) 1 _ (by decide) (by decide)

/-- C9: the rewrite RegExp has no global flag, so only the first textual
occurrence of the matching require call is replaced: if the call form occurs
at the end of a region `s` containing no earlier match, everything after it —
including any further require calls for the same specifier in `t` — is
emitted verbatim. -/
theorem rewriteFirstOccurrenceOnly (spec : Str) (id : Nat) (q : Char)
    (s t : Str) (hq : q = '\'' ∨ q = '"')
    (hs : noEarlyMatch (requireCall '\'' spec) (requireCall '"' spec) s
      (requireCall q spec ++ t) = true) :
    replaceRequire spec (requireId id) (s ++ (requireCall q spec ++ t)) =
      s ++ (requireId id ++ t) :=
  replaceRequire_first spec (requireId id) q hq s t hs

/-- Witness for C9: with the same specifier required twice, the second call
`require("./b")` (inside `t`) survives the rewrite unchanged. -/
theorem rewriteFirstOccurrenceOnly_witness :
    replaceRequire (("./b").data) (requireId 1)
        ((("x = ").data ++ (requireCall '"' (("./b").data) ++
          ((" + ").data ++ requireCall '"' (("./b").data))))) =
      ("x = ").data ++ (requireId 1 ++ ((" + ").data ++
        requireCall '"' (("./b").data))) :=
  rewriteFirstOccurrenceOnly (("./b").data) 1 '"' (("x = ").data)
    ((" + ").data ++ requireCall '"' (("./b").data)) (Or.inr rfl) (by decide)

/-! ## Lemmas about the serialization loop -/

lemma serializeLoopS_aux (env : List (Str × Metadata)) :
    ∀ (l : List (Str × Metadata)) (o : Option (List Str)),
      l.foldl
        (fun st e =>
          (st.1, st.2.bind (fun out =>
            (serializeChunk st.1 e).map (fun c => out ++ [c]))))
        (env, o) =
      (env, l.foldl
        (fun o e => o.bind (fun out =>
          (serializeChunk env e).map (fun c => out ++ [c]))) o) := by
  intro l
  induction l with
  | nil => intro o; rfl
  | cons a l ih => intro o; simpa [List.foldl_cons] using ih _

/-- The threaded serialization loop leaves the module table untouched and
computes its chunks by a plain fold over the reversed table. -/
lemma serializeLoopS_eq (table : List (Str × Metadata)) :
    serializeLoopS table =
      (table, table.reverse.foldl
        (fun o e => o.bind (fun out =>
          (serializeChunk table e).map (fun c => out ++ [c])))
        (some [])) :=
  serializeLoopS_aux table table.reverse (some [])

lemma foldl_opt_none {α : Type} (g : α → Option Str) :
    ∀ l : List α,
      l.foldl (fun o e => o.bind (fun out => (g e).map (fun c => out ++ [c])))
        none = none := by
  intro l
  induction l with
  | nil => rfl
  | cons a l ih => simpa [List.foldl_cons] using ih

lemma foldl_opt_some {α : Type} (g : α → Option Str) :
    ∀ (l : List α) (acc cs : List Str),
      l.foldl (fun o e => o.bind (fun out => (g e).map (fun c => out ++ [c])))
        (some acc) = some cs →
      (∀ e ∈ l, (g e).isSome) ∧ cs = acc ++ l.map (fun e => (g e).getD []) := by
  intro l
  induction l with
  | nil =>
    intro acc cs h
    simp only [List.foldl_nil, Option.some.injEq] at h
    simp [h]
  | cons a l ih =>
    intro acc cs h
    simp only [List.foldl_cons] at h
    cases hg : g a with
    | none =>
      have hstart :
          ((some acc).bind fun out => (g a).map fun c => out ++ [c]) = none := by
        rw [hg]; rfl
      rw [hstart, foldl_opt_none] at h
      cases h
    | some c =>
      have hstart :
          ((some acc).bind fun out => (g a).map fun c => out ++ [c]) =
            some (acc ++ [c]) := by
        rw [hg]; rfl
      rw [hstart] at h
      obtain ⟨hall, hcs⟩ := ih (acc ++ [c]) cs h
      constructor
      · intro e he
        rcases List.mem_cons.mp he with rfl | he'
        · simp [hg]
        · exact hall e he'
      · rw [hcs]
        simp [hg, List.append_assoc]

/-! ## Claim theorems: bundle assembly (C5), serializer purity (C8) -/

/-- C5: every produced bundle text is, in order, the runtime snippet first,
then one `define`-wrapped registration per module carrying that module's own
id, the modules taken in reverse table (id-assignment) order so the entry
module comes last, and finally the single trailing `requireModule(0);`
invocation, all joined with newlines (src/index.mjs:245-276). -/
theorem bundleAssemblyOrder (runtime : Str) (table : List (Str × Metadata))
    (b : Str) (h : serializeBundle runtime table = some b) :
    (∀ e ∈ table, (rewriteDeps table e.2.dependencyMap e.2.code).isSome) ∧
    b = List.intercalate ['\n']
      (runtime :: (table.reverse.map (fun e =>
          wrapModule e.2.id
            ((rewriteDeps table e.2.dependencyMap e.2.code).getD [])) ++
        [("requireModule(0);").data])) := by
  unfold serializeBundle at h
  rw [serializeLoopS_eq] at h
  cases hp : table.reverse.foldl
      (fun o e => o.bind (fun out =>
        (serializeChunk table e).map (fun c => out ++ [c]))) (some []) with
  | none => rw [hp] at h; cases h
  | some chunks =>
    rw [hp] at h
    simp only [Option.map_some', Option.some.injEq] at h
    obtain ⟨hall, hcs⟩ := foldl_opt_some (serializeChunk table) table.reverse [] chunks hp
    have hall' : ∀ e ∈ table, (rewriteDeps table e.2.dependencyMap e.2.code).isSome := by
      intro e he
      have := hall e (List.mem_reverse.mpr he)
      simpa [serializeChunk] using this
    refine ⟨hall', ?_⟩
    have hmap : table.reverse.map (fun e => (serializeChunk table e).getD []) =
        table.reverse.map (fun e =>
          wrapModule e.2.id ((rewriteDeps table e.2.dependencyMap e.2.code).getD [])) := by
      refine List.map_congr_left ?_
      intro e he
      have hs : (rewriteDeps table e.2.dependencyMap e.2.code).isSome :=
        hall' e (List.mem_reverse.mp he)
      cases hr : rewriteDeps table e.2.dependencyMap e.2.code with
      | none => rw [hr] at hs; cases hs
      | some c => simp [serializeChunk, hr]
    rw [← h, hcs, hmap]
    simp

set_option maxRecDepth 8192 in
/-- Witness for C5: the fixture bundle decomposes as stated. -/
theorem bundleAssemblyOrder_witness :
    (∀ e ∈ exSt.modules,
      (rewriteDeps exSt.modules e.2.dependencyMap e.2.code).isSome) ∧
    exBundleText = List.intercalate ['\n']
      (exRuntime :: (exSt.modules.reverse.map (fun e =>
          wrapModule e.2.id
            ((rewriteDeps exSt.modules e.2.dependencyMap e.2.code).getD [])) ++
        [("requireModule(0);").data])) :=
  bundleAssemblyOrder exRuntime exSt.modules exBundleText (by decide)

/-- C8: serialization is a pure read of the module table.  Whatever pair the
threaded serialization loop returns, its table component is the very table it
was given (no mutation), and running the loop again on the returned table
yields byte-identical output. -/
theorem serializeDeterministicNoMutation (table t' : List (Str × Metadata))
    (ob : Option (List Str)) (h : serializeLoopS table = (t', ob)) :
    t' = table ∧ serializeLoopS t' = (t', ob) := by
  have hf : (serializeLoopS table).1 = table := by rw [serializeLoopS_eq]
  rw [h] at hf
  have hf' : t' = table := hf
  refine ⟨hf', ?_⟩
  rw [hf'] at h ⊢
  exact h

set_option maxRecDepth 8192 in
/-- Witness for C8: the fixture table is returned unchanged and the second
run reproduces the same chunks. -/
theorem serializeDeterministicNoMutation_witness :
    exSt.modules = exSt.modules ∧
    serializeLoopS exSt.modules = (exSt.modules, some exChunks) :=
  serializeDeterministicNoMutation exSt.modules exSt.modules (some exChunks)
    (by decide)

/-! ## Claim theorem: the two-module scenario (C3) -/

/-- C3: building from entry `a.js` (which requires `./b`) with `b.js`
dependency-free yields a table of exactly two records, `a.js` with id 0 and
`b.js` with id 1, and the serializer's rewrite turns the textual call
`require("./b")` inside `a.js` into `require(1)` while leaving `b.js`
unchanged. -/
theorem twoModuleScenario :
    (buildLoop exFS 10 (initState aPath)).map (fun st =>
      (st.modules.map (fun e => (e.1, e.2.id)),
       st.modules.map (fun e =>
         rewriteDeps st.modules e.2.dependencyMap e.2.code))) =
    some ([(aPath, 0), (bPath, 1)],
      [some (("console.log(require(1));").data), some bCode]) := by
  decide

/-! ## Claim theorems: the transform stage (C10, C6) -/

/-- C10: `transformFile` is total over its error channel — it always returns
a result object (src/worker.js:7-19).  When the transformer resolves, the
result's `code` is the transformed code, or the original input when the
transformer returns a null code, and no `errorMessage` is present; when the
transformer fails, `code` is the empty string and `errorMessage` carries the
error's message instead of the error propagating. -/
theorem transformFileTotal (transform : Str → Except Str (Option Str))
    (code : Str) :
    (∀ t, transform code = .ok t →
      transformFile transform code =
        { code := t.getD code, errorMessage := none }) ∧
    (∀ msg, transform code = .error msg →
      transformFile transform code =
        { code := [], errorMessage := some msg }) := by
  constructor
  · intro t h; simp [transformFile, h]
  · intro msg h; simp [transformFile, h]

/-- Witness for C10: a rejecting transformer yields the empty code and the
captured message; a null-resolving transformer keeps the input code. -/
theorem transformFileTotal_witness :
    transformFile failT aCode = { code := [], errorMessage := some (("boom").data) } ∧
    transformFile okT aCode = { code := aCode, errorMessage := none } :=
  ⟨(transformFileTotal failT aCode).2 (("boom").data) rfl,
   (transformFileTotal okT aCode).1 none rfl⟩

lemma transformStage_err (transform : Str → Except Str (Option Str)) :
    ∀ (table : List (Str × Metadata)) (p : Str) (m : Metadata) (msg : Str),
      (p, m) ∈ table → transform m.code = .error msg →
      ∃ p' msg' m',
        transformStage transform table =
          .error { modulePath := p', message := msg' } ∧
        (p', m') ∈ table ∧ transform m'.code = .error msg' := by
  intro table
  induction table with
  | nil => intro p m msg h _; simp at h
  | cons hd rest ih =>
    intro p m msg hmem herr
    obtain ⟨p0, m0⟩ := hd
    cases ht : transform m0.code with
    | error msg0 =>
      refine ⟨p0, msg0, m0, ?_, List.mem_cons_self _ _, ht⟩
      simp [transformStage, transformFile, ht]
    | ok t0 =>
      have hr : (p, m) ∈ rest := by
        rcases List.mem_cons.mp hmem with he | hr
        · obtain ⟨rfl, rfl⟩ := Prod.mk.injEq .. ▸ he
          rw [herr] at ht
          cases ht
        · exact hr
      obtain ⟨p', msg', m', hstage, hmem', herr'⟩ := ih p m msg hr herr
      refine ⟨p', msg', m', ?_, List.mem_cons_of_mem _ hmem', herr'⟩
      simp [transformStage, transformFile, ht, hstage]

/-- C6: a per-module transformer error fails the whole build.  If the graph
build produced a module table containing a module whose source the
transformer rejects, the pipeline never returns a bundle, and it returns a
`TransformError` carrying the path and error message of a genuinely failing
module of that table. -/
theorem transformErrorFailsBuild (fs : FileIndex)
    (transform : Str → Except Str (Option Str)) (runtime entry : Str)
    (fuel : Nat) (st : BuildState) (p : Str) (m : Metadata) (msg : Str)
    (hentry : entry ∈ fs.files)
    (hbuild : buildLoop fs fuel (initState entry) = some st)
    (hmem : (p, m) ∈ st.modules)
    (herr : transform m.code = .error msg) :
    (∀ b, bundle fs transform runtime entry fuel ≠ some (.ok b)) ∧
    ∃ p' msg' m',
      bundle fs transform runtime entry fuel =
        some (.error (.transformError p' msg')) ∧
      (p', m') ∈ st.modules ∧ transform m'.code = .error msg' := by
  obtain ⟨p', msg', m', hstage, hmem', herr'⟩ :=
    transformStage_err transform st.modules p m msg hmem herr
  have hb : bundle fs transform runtime entry fuel =
      some (.error (.transformError p' msg')) := by
    simp [bundle, hentry, hbuild, hstage]
  refine ⟨fun b hb' => ?_, p', msg', m', hb, hmem', herr'⟩
  rw [hb] at hb'
  simp at hb'

/-- Witness for C6: the fixture build with a transformer rejecting `a.js`
fails with a `TransformError` and never yields a bundle. -/
theorem transformErrorFailsBuild_witness :
    (∀ b, bundle exFS failT exRuntime aPath 10 ≠ some (.ok b)) ∧
    ∃ p' msg' m',
      bundle exFS failT exRuntime aPath 10 =
        some (.error (.transformError p' msg')) ∧
      (p', m') ∈ exSt.modules ∧ failT m'.code = .error msg' :=
  transformErrorFailsBuild exFS failT exRuntime aPath 10 exSt aPath aMeta
    (("boom").data) (by decide) (by decide) (by decide) rfl

/-! ## Claim theorem: the entry existence check (C7) -/

/-- C7: a missing entry path fails the build with the entry-not-found error
before any graph traversal, and no bundle text is produced; for an existing
entry path this error is never the outcome (src/index.mjs:167-171). -/
theorem entryNotFoundCheck (fs : FileIndex)
    (transform : Str → Except Str (Option Str)) (runtime entry : Str)
    (fuel : Nat) :
    (entry ∉ fs.files →
      bundle fs transform runtime entry fuel = some (.error .entryNotFound)) ∧
    (entry ∈ fs.files → ∀ r, bundle fs transform runtime entry fuel = some r →
      r ≠ .error .entryNotFound) := by
  constructor
  · intro h; simp [bundle, h]
  · intro h r hr
    simp only [bundle, if_pos h] at hr
    split at hr
    · cases hr
    · split at hr
      · obtain rfl := Option.some.inj hr
        intro hc
        cases hc
      · split at hr
        · obtain rfl := Option.some.inj hr
          intro hc
          cases hc
        · obtain rfl := Option.some.inj hr
          intro hc
          cases hc

/-- Witness for C7: a path outside the fixture index fails with the
entry-not-found error. -/
theorem entryNotFoundCheck_witness :
    bundle exFS okT exRuntime (("/nope.js").data) 10 =
      some (.error .entryNotFound) :=
  (entryNotFoundCheck exFS okT exRuntime (("/nope.js").data) 10).1 (by decide)

/-! ## Lemmas about the dependency map -/

lemma foldl_insertDep_inv (f : Str → Str) (ds : List Str) :
    ∀ (l acc : List (Str × Str)),
      (∀ e ∈ acc, e.2 = f e.1 ∧ e.1 ∈ ds) →
      (∀ e ∈ l, e.2 = f e.1 ∧ e.1 ∈ ds) →
      ∀ e ∈ l.foldl insertDep acc, e.2 = f e.1 ∧ e.1 ∈ ds := by
  intro l
  induction l with
  | nil => intro acc hacc _ e he; exact hacc e he
  | cons kv l ih =>
    intro acc hacc hl e he
    rw [List.foldl_cons] at he
    refine ih (insertDep acc kv) ?_ (fun x hx => hl x (List.mem_cons_of_mem _ hx)) e he
    intro x hx
    unfold insertDep at hx
    split at hx
    · obtain ⟨y, hy, hxy⟩ := List.mem_map.mp hx
      by_cases hk : y.1 = kv.1
      · rw [if_pos hk] at hxy
        have hkv := hl kv (List.mem_cons_self _ _)
        subst hxy
        exact ⟨by simp [hk, hkv.1], by simpa using (hacc y hy).2⟩
      · rw [if_neg hk] at hxy
        subst hxy
        exact hacc y hy
    · rcases List.mem_append.mp hx with hx' | hx'
      · exact hacc x hx'
      · rw [List.mem_singleton.mp hx']
        exact hl kv (List.mem_cons_self _ _)

lemma insertDep_key_mem (acc : List (Str × Str)) (kv : Str × Str) (k : Str)
    (h : k ∈ acc.map (fun e => e.1) ∨ k = kv.1) :
    k ∈ (insertDep acc kv).map (fun e => e.1) := by
  unfold insertDep
  split
  · rename_i hin
    have hkeys : (acc.map (fun e => if e.1 = kv.1 then (e.1, kv.2) else e)).map
        (fun e => e.1) = acc.map (fun e => e.1) := by
      rw [List.map_map]
      refine List.map_congr_left ?_
      intro e _
      by_cases hk : e.1 = kv.1 <;> simp [hk]
    rw [hkeys]
    rcases h with h | h
    · exact h
    · rw [h]; exact hin
  · rcases h with h | h
    · simpa using Or.inl h
    · simp [h]

lemma foldl_insertDep_key (k : Str) :
    ∀ (l acc : List (Str × Str)),
      (k ∈ acc.map (fun e => e.1) ∨ ∃ v, (k, v) ∈ l) →
      k ∈ (l.foldl insertDep acc).map (fun e => e.1) := by
  intro l
  induction l with
  | nil =>
    intro acc h
    rcases h with h | ⟨v, hv⟩
    · exact h
    · cases hv
  | cons kv l ih =>
    intro acc h
    rw [List.foldl_cons]
    rcases h with h | ⟨v, hv⟩
    · exact ih _ (Or.inl (insertDep_key_mem acc kv k (Or.inl h)))
    · rcases List.mem_cons.mp hv with he | hv'
      · have hk : k = kv.1 := by rw [← he]
        exact ih _ (Or.inl (insertDep_key_mem acc kv k (Or.inr hk)))
      · exact ih _ (Or.inr ⟨v, hv'⟩)

/-- Every value of the built dependency map is the resolution of one of the
scanned specifiers. -/
lemma mkDepMap_val_shape (fs : FileIndex) (m : Str) :
    ∀ v ∈ (mkDependencyMap (depPairs fs m)).map (fun e => e.2),
      ∃ d ∈ fs.getDependencies m, v = fs.resolveModule m d := by
  intro v hv
  obtain ⟨e, he, hev⟩ := List.mem_map.mp hv
  have hinv := foldl_insertDep_inv (fs.resolveModule m) (fs.getDependencies m)
    (depPairs fs m) [] (by intro x hx; cases hx)
    (by
      intro x hx
      obtain ⟨d, hd, hdx⟩ := List.mem_map.mp hx
      subst hdx
      exact ⟨rfl, hd⟩)
    e he
  exact ⟨e.1, hinv.2, by rw [← hev, hinv.1]⟩

/-- The resolution of every scanned specifier appears among the values of the
built dependency map. -/
lemma mkDepMap_val_cover (fs : FileIndex) (m : Str) :
    ∀ d ∈ fs.getDependencies m,
      fs.resolveModule m d ∈ (mkDependencyMap (depPairs fs m)).map (fun e => e.2) := by
  intro d hd
  have hkey : d ∈ (mkDependencyMap (depPairs fs m)).map (fun e => e.1) := by
    refine foldl_insertDep_key d (depPairs fs m) [] (Or.inr ⟨fs.resolveModule m d, ?_⟩)
    exact List.mem_map.mpr ⟨d, hd, rfl⟩
  obtain ⟨e, he, hek⟩ := List.mem_map.mp hkey
  have hinv := foldl_insertDep_inv (fs.resolveModule m) (fs.getDependencies m)
    (depPairs fs m) [] (by intro x hx; cases hx)
    (by
      intro x hx
      obtain ⟨d0, hd0, hdx⟩ := List.mem_map.mp hx
      subst hdx
      exact ⟨rfl, hd0⟩)
    e he
  refine List.mem_map.mpr ⟨e, he, ?_⟩
  rw [hinv.1, hek]

lemma insertDep_length (acc : List (Str × Str)) (kv : Str × Str) :
    (insertDep acc kv).length ≤ acc.length + 1 := by
  unfold insertDep
  split
  · simp
  · simp

lemma foldl_insertDep_length :
    ∀ (l acc : List (Str × Str)),
      (l.foldl insertDep acc).length ≤ acc.length + l.length := by
  intro l
  induction l with
  | nil => intro acc; simp
  | cons kv l ih =>
    intro acc
    rw [List.foldl_cons]
    calc (l.foldl insertDep (insertDep acc kv)).length
        ≤ (insertDep acc kv).length + l.length := ih _
      _ ≤ acc.length + 1 + l.length := by
          have := insertDep_length acc kv
          omega
      _ = acc.length + (kv :: l).length := by simp; omega

lemma mkDepMap_length (l : List (Str × Str)) :
    (mkDependencyMap l).length ≤ l.length := by
  simpa using foldl_insertDep_length l []

/-! ## Lemmas about the termination measure -/

lemma foldl_max_init_le : ∀ (l : List Nat) (a : Nat), a ≤ l.foldl Nat.max a := by
  intro l
  induction l with
  | nil => intro a; simp
  | cons x l ih =>
    intro a
    calc a ≤ Nat.max a x := Nat.le_max_left a x
      _ ≤ l.foldl Nat.max (Nat.max a x) := ih _

lemma le_foldl_max : ∀ (l : List Nat) (a x : Nat), x ∈ l → x ≤ l.foldl Nat.max a := by
  intro l
  induction l with
  | nil => intro a x h; cases h
  | cons y l ih =>
    intro a x h
    rcases List.mem_cons.mp h with rfl | h'
    · calc x ≤ Nat.max a x := Nat.le_max_right a x
        _ ≤ l.foldl Nat.max (Nat.max a x) := foldl_max_init_le _ _
    · exact ih _ x h'

lemma deps_le_depBound (fs : FileIndex) (m : Str) (h : m ∈ fs.files) :
    (fs.getDependencies m).length ≤ depBound fs :=
  le_foldl_max _ 0 _ (List.mem_map.mpr ⟨m, h, rfl⟩)

lemma card_sdiff_insert_succ (A S : Finset Str) (m : Str) (hA : m ∈ A)
    (hS : m ∉ S) : (A \ insert m S).card + 1 = (A \ S).card := by
  have h1 : A \ insert m S = (A \ S).erase m := by
    ext a
    simp only [Finset.mem_sdiff, Finset.mem_insert, Finset.mem_erase]
    tauto
  have hm : m ∈ A \ S := Finset.mem_sdiff.mpr ⟨hA, hS⟩
  rw [h1, Finset.card_erase_of_mem hm]
  have hpos : 0 < (A \ S).card := Finset.card_pos.mpr ⟨m, hm⟩
  omega

lemma buildMeasure_skip (fs : FileIndex) (st : BuildState) (m : Str)
    (rest : List Str) (hq : st.queue = m :: rest) :
    buildMeasure fs { st with queue := rest } + 1 = buildMeasure fs st := by
  simp only [buildMeasure, hq, List.length_cons]
  omega

lemma buildMeasure_visit (fs : FileIndex) (st : BuildState) (m : Str)
    (rest : List Str) (hq : st.queue = m :: rest) (hmf : m ∈ fs.files)
    (hms : m ∉ st.seen) :
    buildMeasure fs (visitState fs st m rest) < buildMeasure fs st := by
  have hK := card_sdiff_insert_succ fs.files.toFinset st.seen.toFinset m
    (List.mem_toFinset.mpr hmf) (fun hc => hms (List.mem_toFinset.mp hc))
  have hdm : (mkDependencyMap (depPairs fs m)).length ≤ depBound fs := by
    calc (mkDependencyMap (depPairs fs m)).length
        ≤ (depPairs fs m).length := mkDepMap_length _
      _ = (fs.getDependencies m).length := by simp [depPairs]
      _ ≤ depBound fs := deps_le_depBound fs m hmf
  have hW : (depBound fs + 1) * (fs.files.toFinset \ st.seen.toFinset).card =
      (depBound fs + 1) *
        (fs.files.toFinset \ insert m st.seen.toFinset).card +
        (depBound fs + 1) := by
    rw [← hK, Nat.mul_add, Nat.mul_one]
  simp only [buildMeasure, visitState, hq, List.toFinset_cons,
    List.length_append, List.length_map, List.length_cons]
  omega

/-! ## Invariant preservation for the graph-building loop -/

lemma inv_skip (fs : FileIndex) (entry : Str) (st : BuildState) (m : Str)
    (rest : List Str) (hq : st.queue = m :: rest) (hm : m ∈ st.seen)
    (inv : BuildInv fs entry st) :
    BuildInv fs entry { st with queue := rest } := by
  have hsub : ∀ p ∈ rest, p ∈ st.queue := by
    intro p hp; rw [hq]; exact List.mem_cons_of_mem _ hp
  refine ⟨?_, inv.seen_files, ?_, inv.seen_reach, ?_, ?_, inv.keys_eq,
    inv.seen_nodup, inv.ids_range, inv.count_eq, inv.entry_first, ?_⟩
  · intro p hp; exact inv.queue_files p (hsub p hp)
  · intro p hp; exact inv.queue_reach p (hsub p hp)
  · rcases inv.entry_mem with h | h
    · exact Or.inl h
    · rw [hq] at h
      rcases List.mem_cons.mp h with rfl | h'
      · exact Or.inl hm
      · exact Or.inr h'
  · intro p hp d hd
    rcases inv.closed p hp d hd with h | h
    · exact Or.inl h
    · rw [hq] at h
      rcases List.mem_cons.mp h with he | h'
      · rw [he]; exact Or.inl hm
      · exact Or.inr h'
  · intro hmod
    obtain ⟨hs0, _⟩ := inv.start hmod
    rw [hs0] at hm
    cases hm

lemma inv_visit (fs : FileIndex) (entry : Str) (st : BuildState) (m : Str)
    (rest : List Str) (Hres : ∀ p s, fs.resolveModule p s ∈ fs.files)
    (hq : st.queue = m :: rest) (hm : m ∉ st.seen)
    (inv : BuildInv fs entry st) :
    BuildInv fs entry (visitState fs st m rest) := by
  have hmq : m ∈ st.queue := by rw [hq]; exact List.mem_cons_self _ _
  have hmf : m ∈ fs.files := inv.queue_files m hmq
  have hmr : Reachable fs entry m := inv.queue_reach m hmq
  have hrest : ∀ p ∈ rest, p ∈ st.queue := by
    intro p hp; rw [hq]; exact List.mem_cons_of_mem _ hp
  have hval : ∀ v ∈ (mkDependencyMap (depPairs fs m)).map (fun e => e.2),
      Reachable fs entry v ∧ v ∈ fs.files := by
    intro v hv
    obtain ⟨d, hd, hdv⟩ := mkDepMap_val_shape fs m v hv
    subst hdv
    exact ⟨Reachable.step m d hmr hd, Hres m d⟩
  refine ⟨?_, ?_, ?_, ?_, ?_, ?_, ?_, ?_, ?_, ?_, ?_, ?_⟩
  · intro p hp
    rcases List.mem_append.mp hp with hp' | hp'
    · exact inv.queue_files p (hrest p hp')
    · exact (hval p hp').2
  · intro p hp
    rcases List.mem_cons.mp hp with rfl | hp'
    · exact hmf
    · exact inv.seen_files p hp'
  · intro p hp
    rcases List.mem_append.mp hp with hp' | hp'
    · exact inv.queue_reach p (hrest p hp')
    · exact (hval p hp').1
  · intro p hp
    rcases List.mem_cons.mp hp with rfl | hp'
    · exact hmr
    · exact inv.seen_reach p hp'
  · rcases inv.entry_mem with h | h
    · exact Or.inl (List.mem_cons_of_mem _ h)
    · rw [hq] at h
      rcases List.mem_cons.mp h with rfl | h'
      · exact Or.inl (List.mem_cons_self _ _)
      · exact Or.inr (List.mem_append_left _ h')
  · intro p hp d hd
    rcases List.mem_cons.mp hp with rfl | hp'
    · exact Or.inr (List.mem_append_right _ (mkDepMap_val_cover fs p d hd))
    · rcases inv.closed p hp' d hd with h | h
      · exact Or.inl (List.mem_cons_of_mem _ h)
      · rw [hq] at h
        rcases List.mem_cons.mp h with he | h'
        · rw [he]; exact Or.inl (List.mem_cons_self _ _)
        · exact Or.inr (List.mem_append_left _ h')
  · simp [visitState, inv.keys_eq, List.reverse_cons]
  · exact List.nodup_cons.mpr ⟨hm, inv.seen_nodup⟩
  · simp [visitState, inv.ids_range, List.range_succ]
  · simp [visitState, inv.count_eq]
  · rcases inv.entry_first with hnil | ⟨m0, rest0, hmod, hid⟩
    · obtain ⟨_, hq0⟩ := inv.start hnil
      have hcons : [entry] = m :: rest := hq0.symm.trans hq
      have hme : entry = m := by injection hcons
      have hid0 : st.nextId = 0 := by simp [inv.count_eq, hnil]
      refine Or.inr ⟨Metadata.mk st.nextId (fs.readFile m)
        (mkDependencyMap (depPairs fs m)), [], ?_, hid0⟩
      simp [visitState, hnil, ← hme]
    · refine Or.inr ⟨m0, rest0 ++ [(m, Metadata.mk st.nextId (fs.readFile m)
        (mkDependencyMap (depPairs fs m)))], ?_, hid⟩
      simp [visitState, hmod]
  · intro hmod
    exact absurd hmod (by simp [visitState])

lemma init_inv (fs : FileIndex) (entry : Str) (Hentry : entry ∈ fs.files) :
    BuildInv fs entry (initState entry) := by
  refine ⟨?_, ?_, ?_, ?_, ?_, ?_, rfl, List.nodup_nil, rfl, rfl, Or.inl rfl, ?_⟩
  · intro p hp
    rw [List.mem_singleton.mp hp]
    exact Hentry
  · intro p hp; cases hp
  · intro p hp
    rw [List.mem_singleton.mp hp]
    exact Reachable.base
  · intro p hp; cases hp
  · exact Or.inr (List.mem_singleton.mpr rfl)
  · intro p hp; cases hp
  · intro _; exact ⟨rfl, rfl⟩

/-- Main loop lemma: with enough fuel, the loop consumes its whole queue and
preserves the invariant. -/
lemma buildLoop_run (fs : FileIndex) (entry : Str)
    (Hres : ∀ p s, fs.resolveModule p s ∈ fs.files) :
    ∀ (fuel : Nat) (st : BuildState), BuildInv fs entry st →
      buildMeasure fs st < fuel →
      ∃ st', buildLoop fs fuel st = some st' ∧ BuildInv fs entry st' ∧
        st'.queue = [] := by
  intro fuel
  induction fuel with
  | zero => intro st _ hlt; exact absurd hlt (Nat.not_lt_zero _)
  | succ fuel ih =>
    intro st inv hlt
    cases hq : st.queue with
    | nil =>
      refine ⟨st, ?_, inv, hq⟩
      simp [buildLoop, hq]
    | cons m rest =>
      by_cases hm : m ∈ st.seen
      · have hmeas := buildMeasure_skip fs st m rest hq
        obtain ⟨st', hrun, inv', hq'⟩ :=
          ih { st with queue := rest } (inv_skip fs entry st m rest hq hm inv)
            (by omega)
        refine ⟨st', ?_, inv', hq'⟩
        simp [buildLoop, hq, hm, hrun]
      · have hmf : m ∈ fs.files := by
          refine inv.queue_files m ?_
          rw [hq]
          exact List.mem_cons_self _ _
        have hmeas := buildMeasure_visit fs st m rest hq hmf hm
        obtain ⟨st', hrun, inv', hq'⟩ :=
          ih (visitState fs st m rest)
            (inv_visit fs entry st m rest Hres hq hm inv) (by omega)
        refine ⟨st', ?_, inv', hq'⟩
        simp [buildLoop, hq, hm, hrun]

/-- At a final state the module table's keys are exactly the reachable
paths, without duplicates. -/
lemma final_modules_iff (fs : FileIndex) (entry : Str) (st : BuildState)
    (inv : BuildInv fs entry st) (hq : st.queue = []) :
    (∀ p, Reachable fs entry p ↔ p ∈ st.modules.map (fun e => e.1)) ∧
    (st.modules.map (fun e => e.1)).Nodup := by
  have hmem : ∀ p, p ∈ st.modules.map (fun e => e.1) ↔ p ∈ st.seen := by
    intro p
    rw [inv.keys_eq, List.mem_reverse]
  have hcl : ∀ p ∈ st.seen, ∀ d ∈ fs.getDependencies p,
      fs.resolveModule p d ∈ st.seen := by
    intro p hp d hd
    rcases inv.closed p hp d hd with h | h
    · exact h
    · rw [hq] at h; cases h
  have hent : entry ∈ st.seen := by
    rcases inv.entry_mem with h | h
    · exact h
    · rw [hq] at h; cases h
  constructor
  · intro p
    rw [hmem]
    constructor
    · intro hr
      induction hr with
      | base => exact hent
      | step p d _ hd ihr => exact hcl p ihr d hd
    · exact inv.seen_reach p
  · rw [inv.keys_eq]
    exact List.nodup_reverse.mpr inv.seen_nodup

/-! ## Claim theorems: dense ids (C1) and terminating deduplicated build (C2) -/

/-- C1: for every completed build the module table records the modules in
first-visit order with ids `0, 1, 2, …` — i.e. the multiset of assigned ids
is exactly the dense range `0..N-1` for `N` modules — and the entry module is
the first record, with id `0` (src/index.mjs:191-229). -/
theorem idsDenseEntryZero (fs : FileIndex) (entry : Str)
    (Hres : ∀ p s, fs.resolveModule p s ∈ fs.files)
    (Hentry : entry ∈ fs.files) :
    ∃ st, buildLoop fs (buildMeasure fs (initState entry) + 1)
        (initState entry) = some st ∧
      st.modules.map (fun e => e.2.id) = List.range st.modules.length ∧
      ∃ m0 rest, st.modules = (entry, m0) :: rest ∧ m0.id = 0 := by
  obtain ⟨st, hrun, inv, hq⟩ := buildLoop_run fs entry Hres _ _
    (init_inv fs entry Hentry) (Nat.lt_succ_self _)
  have hids : st.modules.map (fun e => e.2.id) = List.range st.modules.length := by
    rw [inv.ids_range, inv.count_eq]
  rcases inv.entry_first with hnil | hef
  · obtain ⟨_, hq0⟩ := inv.start hnil
    rw [hq] at hq0
    cases hq0
  · exact ⟨st, hrun, hids, hef⟩

/-- Witness for C1: the two-module fixture builds with ids `[0, 1]` and the
entry `a.js` first with id 0. -/
theorem idsDenseEntryZero_witness :
    ∃ st, buildLoop exFS (buildMeasure exFS (initState aPath) + 1)
        (initState aPath) = some st ∧
      st.modules.map (fun e => e.2.id) = List.range st.modules.length ∧
      ∃ m0 rest, st.modules = (aPath, m0) :: rest ∧ m0.id = 0 :=
  idsDenseEntryZero exFS aPath
    (by
      intro p s
      dsimp only [exFS]
      split <;> decide)
    (by decide)

/-- C2: for every dependency graph — cycles included — the breadth-first
build terminates (an explicitly computed fuel value suffices to drain the
queue), and the resulting module table contains exactly the modules reachable
from the entry, each exactly once (src/index.mjs:196-229). -/
theorem buildTerminatesReachableOnce (fs : FileIndex) (entry : Str)
    (Hres : ∀ p s, fs.resolveModule p s ∈ fs.files)
    (Hentry : entry ∈ fs.files) :
    ∃ st, buildLoop fs (buildMeasure fs (initState entry) + 1)
        (initState entry) = some st ∧
      (∀ p, Reachable fs entry p ↔ p ∈ st.modules.map (fun e => e.1)) ∧
      (st.modules.map (fun e => e.1)).Nodup := by
  obtain ⟨st, hrun, inv, hq⟩ := buildLoop_run fs entry Hres _ _
    (init_inv fs entry Hentry) (Nat.lt_succ_self _)
  obtain ⟨hiff, hnd⟩ := final_modules_iff fs entry st inv hq
  exact ⟨st, hrun, hiff, hnd⟩

/-- Witness for C2: the build over the cyclic graph `a ↔ b` terminates with a
deduplicated table of exactly the reachable modules. -/
theorem buildTerminatesReachableOnce_witness :
    ∃ st, buildLoop cycFS (buildMeasure cycFS (initState aPath) + 1)
        (initState aPath) = some st ∧
      (∀ p, Reachable cycFS aPath p ↔ p ∈ st.modules.map (fun e => e.1)) ∧
      (st.modules.map (fun e => e.1)).Nodup :=
  buildTerminatesReachableOnce cycFS aPath
    (by
      intro p s
      dsimp only [cycFS]
      split <;> decide)
    (by decide)

end JestBundler
